import Mathlib

/-!
Verification of `badpubs`, a script that scans an RDF publications feed for
records missing a PubMed identifier and reports them.

The Python source (`src/badpubs.py`) is shallowly embedded below:

* triples are modelled as a list of `Triple` (subject, predicate, object, all
  as strings, in arrival/iteration order of the graph);
* Python dicts are modelled as association lists with first-match lookup and
  insertion at the tail, which matches dict semantics for the operations the
  script uses (`get`, `in`, item assignment);
* the detection pipeline (`parsePubs`, `findMissingPubMedIDs`,
  `outputBadPublications`, `checkPublications`, `main`) is translated
  function by function;
* the `csv` module's writer (QUOTE_MINIMAL dialect: quote a field containing
  a comma, quote char, CR or LF; double embedded quote chars; rows terminated
  by CRLF; `None` written as the empty field) is embedded together with a
  reader, for the round-trip property;
* the external PubMed esearch service is modelled as an oracle from query
  parameter lists to the list of returned identifier elements.
-/

namespace Badpubs

/-! ### Constants from the script -/

def pubMedIDPredURI : String := "http://edrn.nci.nih.gov/rdf/schema.rdf#pmid"

def titlePredURI : String := "http://purl.org/dc/terms/title"

def creatorPredURI : String := "http://purl.org/dc/terms/author"

def NO_TITLE : String := "«NO TITLE»"

def NO_AUTHORS : String := "«NO AUTHORS»"

/-! ### Data model -/

/-- One RDF statement `(s, p, o)` as iterated from the parsed graph. -/
structure Triple where
  subj : String
  pred : String
  obj : String
deriving DecidableEq, Repr

/-- A subject's record: predicate URI → ordered object values (a Python dict
of lists, as built by `parsePubs`). -/
abbrev Record := List (String × List String)

/-- The statement index: subject URI → record (the `statements` dict). -/
abbrev StatementIndex := List (String × Record)

/-- First-match lookup in an association list; models `d[k]` / `k in d` /
`d.get(k)` for a Python dict represented with unique keys. -/
def lookupKey {α : Type} : List (String × α) → String → Option α
  | [], _ => none
  | (k, v) :: rest, key => if k = key then some v else lookupKey rest key

/-- Model of `statements[s][p].append(o)` on a record: extend the value list of `p`
(creating it if absent, at the tail, as dict item assignment does). -/
def addObj (rec : Record) (p o : String) : Record :=
  match rec with
  | [] => [(p, [o])]
  | (q, vs) :: rest =>
    if q = p then (q, vs ++ [o]) :: rest else (q, vs) :: addObj rest p o

/-- Process one triple of the `for s, p, o in g` loop of `parsePubs`. -/
def addTriple (st : StatementIndex) (t : Triple) : StatementIndex :=
  match st with
  | [] => [(t.subj, [(t.pred, [t.obj])])]
  | (u, rec) :: rest =>
    if u = t.subj then (u, addObj rec t.pred t.obj) :: rest
    else (u, rec) :: addTriple rest t

/-- Model of `parsePubs`: fold the triples of the graph into the statement index
(the graph fetch itself is I/O and is modelled in `mainRun` below). -/
def parsePubs (triples : List Triple) : StatementIndex :=
  triples.foldl addTriple []

/-- The value list a correct index must associate to subject `s` and
predicate `p`: the objects of the matching triples, in arrival order. -/
def indexValues (ts : List Triple) (s p : String) : List String :=
  (ts.filter (fun t => t.subj = s && t.pred = p)).map Triple.obj

/-- Whether some triple mentions `s` as its subject. -/
def subjOccurs (ts : List Triple) (s : String) : Bool :=
  ts.any (fun t => t.subj = s)

/-- The entry of the index for subject `s`, predicate `p` (absent subjects
read as the empty record). -/
def predEntry (st : StatementIndex) (s p : String) : Option (List String) :=
  lookupKey ((lookupKey st s).getD []) p

/-- The subject keys of the index. -/
def keys (st : StatementIndex) : List String := st.map Prod.fst

/-- How a pre-existing entry is extended by further values. -/
def extendEntry (e : Option (List String)) (vs : List String) :
    Option (List String) :=
  match e with
  | some us => some (us ++ vs)
  | none => if vs = [] then none else some vs

/-! ### Indexer lemmas -/

theorem lookupKey_addObj (rec : Record) (p o q : String) :
    lookupKey (addObj rec p o) q =
      if q = p then some (((lookupKey rec p).getD []) ++ [o])
      else lookupKey rec q := by
  induction rec with
  | nil =>
    by_cases h : q = p
    · subst h; simp [addObj, lookupKey]
    · simp [addObj, lookupKey, h, Ne.symm h]
  | cons kv rest ih =>
    obtain ⟨k, vs⟩ := kv
    by_cases hk : k = p
    · subst hk
      by_cases hq : q = k
      · subst hq; simp [addObj, lookupKey]
      · simp [addObj, lookupKey, hq, Ne.symm hq]
    · by_cases hq : q = k
      · subst hq
        simp [addObj, lookupKey, hk, Ne.symm hk]
      · simp [addObj, lookupKey, hk, Ne.symm hq, ih]

theorem lookupKey_addTriple (st : StatementIndex) (t : Triple) (s : String) :
    lookupKey (addTriple st t) s =
      if s = t.subj then
        some (addObj ((lookupKey st t.subj).getD []) t.pred t.obj)
      else lookupKey st s := by
  induction st with
  | nil =>
    by_cases h : s = t.subj
    · subst h; simp [addTriple, lookupKey, addObj]
    · simp [addTriple, lookupKey, h, Ne.symm h, addObj]
  | cons kv rest ih =>
    obtain ⟨u, rec⟩ := kv
    by_cases hu : u = t.subj
    · subst hu
      by_cases hs : s = t.subj
      · simp [addTriple, lookupKey, hs]
      · have hus : ¬t.subj = s := fun h => hs h.symm
        simp [addTriple, lookupKey, hs, hus]
    · by_cases hus : u = s
      · have hs : ¬s = t.subj := fun h => hu (by rw [hus]; exact h)
        simp [addTriple, lookupKey, hu, hs, hus]
      · simp [addTriple, lookupKey, hu, hus, ih]

theorem extendEntry_nil (e : Option (List String)) : extendEntry e [] = e := by
  cases e <;> simp [extendEntry]

theorem extendEntry_append (e : Option (List String)) (vs ws : List String) :
    extendEntry (extendEntry e vs) ws = extendEntry e (vs ++ ws) := by
  cases e with
  | some us => simp [extendEntry]
  | none =>
    by_cases hv : vs = []
    · subst hv; simp [extendEntry]
    · by_cases hw : ws = [] <;> simp [extendEntry, hv, hw]

theorem predEntry_addTriple (st : StatementIndex) (t : Triple) (s p : String) :
    predEntry (addTriple st t) s p =
      extendEntry (predEntry st s p) (indexValues [t] s p) := by
  unfold predEntry
  rw [lookupKey_addTriple]
  by_cases hs : s = t.subj
  · subst hs
    rw [if_pos rfl, Option.getD_some, lookupKey_addObj]
    by_cases hp : p = t.pred
    · subst hp
      rw [if_pos rfl]
      have hv : indexValues [t] t.subj t.pred = [t.obj] := by
        simp [indexValues]
      rw [hv]
      cases lookupKey ((lookupKey st t.subj).getD []) t.pred <;>
        simp [extendEntry]
    · have hv : indexValues [t] t.subj p = [] := by
        simp [indexValues, Ne.symm hp]
      rw [if_neg hp, hv, extendEntry_nil]
  · have hv : indexValues [t] s p = [] := by
      have hs' : ¬t.subj = s := fun h => hs h.symm
      simp [indexValues, hs']
    rw [hv, extendEntry_nil, if_neg hs]

theorem indexValues_cons (t : Triple) (ts : List Triple) (s p : String) :
    indexValues (t :: ts) s p = indexValues [t] s p ++ indexValues ts s p := by
  by_cases h1 : t.subj = s <;> by_cases h2 : t.pred = p <;>
    simp [indexValues, List.filter_cons, h1, h2]

theorem predEntry_foldl (ts : List Triple) :
    ∀ (st : StatementIndex) (s p : String),
      predEntry (List.foldl addTriple st ts) s p =
        extendEntry (predEntry st s p) (indexValues ts s p) := by
  induction ts with
  | nil => intro st s p; simp [indexValues, extendEntry_nil]
  | cons t ts ih =>
    intro st s p
    rw [List.foldl_cons, ih, predEntry_addTriple, extendEntry_append,
      ← indexValues_cons]

/-- Characterisation of the index entries produced by `parsePubs`. -/
theorem predEntry_parsePubs (ts : List Triple) (s p : String) :
    predEntry (parsePubs ts) s p =
      if indexValues ts s p = [] then none else some (indexValues ts s p) := by
  have h := predEntry_foldl ts [] s p
  simpa [parsePubs, predEntry, lookupKey, extendEntry] using h

theorem keys_addTriple (st : StatementIndex) (t : Triple) :
    keys (addTriple st t) =
      if (lookupKey st t.subj).isSome then keys st else keys st ++ [t.subj] := by
  induction st with
  | nil => simp [addTriple, keys, lookupKey]
  | cons kv rest ih =>
    obtain ⟨u, rec⟩ := kv
    by_cases hu : u = t.subj
    · simp [addTriple, keys, lookupKey, hu]
    · simp only [addTriple, if_neg hu, keys, List.map_cons, lookupKey,
        if_neg hu]
      rw [show (List.map Prod.fst (addTriple rest t)) = keys (addTriple rest t)
        from rfl, ih]
      by_cases h : (lookupKey rest t.subj).isSome <;> simp [h, keys]

theorem mem_keys_iff_lookup (st : StatementIndex) (s : String) :
    s ∈ keys st ↔ (lookupKey st s).isSome := by
  induction st with
  | nil => simp [keys, lookupKey]
  | cons kv rest ih =>
    obtain ⟨u, rec⟩ := kv
    by_cases hu : u = s
    · simp [keys, lookupKey, hu]
    · have hk : keys ((u, rec) :: rest) = u :: keys rest := rfl
      rw [hk, List.mem_cons, lookupKey, if_neg hu, ← ih]
      simp [Ne.symm hu]

theorem keys_nodup_addTriple (st : StatementIndex) (t : Triple)
    (h : (keys st).Nodup) : (keys (addTriple st t)).Nodup := by
  rw [keys_addTriple]
  by_cases hl : (lookupKey st t.subj).isSome
  · simpa [hl] using h
  · simp only [hl, if_false, Bool.false_eq_true]
    rw [List.nodup_append]
    refine ⟨h, List.nodup_singleton _, ?_⟩
    intro a ha hb
    rw [List.mem_singleton] at hb
    subst hb
    rw [mem_keys_iff_lookup] at ha
    exact hl ha

theorem keys_nodup_parsePubs (ts : List Triple) :
    (keys (parsePubs ts)).Nodup := by
  unfold parsePubs
  suffices h : ∀ st : StatementIndex, (keys st).Nodup →
      (keys (List.foldl addTriple st ts)).Nodup by
    exact h [] (by simp [keys])
  induction ts with
  | nil => intro st hst; simpa using hst
  | cons t ts ih =>
    intro st hst
    rw [List.foldl_cons]
    exact ih _ (keys_nodup_addTriple st t hst)

theorem subjKey_foldl (ts : List Triple) :
    ∀ (st : StatementIndex) (s : String),
      (lookupKey (List.foldl addTriple st ts) s).isSome =
        ((lookupKey st s).isSome || subjOccurs ts s) := by
  induction ts with
  | nil => intro st s; simp [subjOccurs]
  | cons t ts ih =>
    intro st s
    rw [List.foldl_cons, ih]
    by_cases hs : s = t.subj
    · subst hs
      simp [lookupKey_addTriple, subjOccurs]
    · have hs' : ¬t.subj = s := fun h => hs h.symm
      simp [lookupKey_addTriple, hs, hs', subjOccurs]

/-- A subject has a record in the `parsePubs` index exactly when some triple
mentions it. -/
theorem subjKey_parsePubs (ts : List Triple) (s : String) :
    (lookupKey (parsePubs ts) s).isSome = subjOccurs ts s := by
  have h := subjKey_foldl ts [] s
  simpa [parsePubs, lookupKey] using h

/-! ### Gap detector -/

/-- Model of `findMissingPubMedIDs`: keep the subjects whose record has no entry for
the PubMed ID predicate (the `if _pubMedIDPredURI not in predicates` loop). -/
def findMissingPubMedIDs (statements : StatementIndex) :
    List (String × Record) :=
  statements.filter (fun sr => (lookupKey sr.2 pubMedIDPredURI).isNone)

/-! ### Reporter -/

/-- Title rendering of `outputBadPublications`: first title value wrapped in
quotation marks, else the `NO_TITLE` sentinel. -/
def renderTitle (preds : Record) : String :=
  match lookupKey preds titlePredURI with
  | some vs => "\"" ++ vs.headD "" ++ "\""
  | none => NO_TITLE

/-- Creators rendering of `outputBadPublications`: all creator values joined
with `"; "`, else the `NO_AUTHORS` sentinel. -/
def renderCreators (preds : Record) : String :=
  match lookupKey preds creatorPredURI with
  | some vs => String.intercalate "; " vs
  | none => NO_AUTHORS

/-- The comparison key of `missing.sort(lambda a, b: cmp(a[0], b[0]))`:
gaps are ordered by their subject URI, lexicographically on its characters
(Python's unicode-string comparison). -/
def gapLE (a b : String × Record) : Prop := a.1.data ≤ b.1.data

instance : DecidableRel gapLE := fun a b =>
  inferInstanceAs (Decidable (a.1.data ≤ b.1.data))

instance : IsTotal (String × Record) gapLE :=
  ⟨fun a b => le_total a.1.data b.1.data⟩

instance : IsTrans (String × Record) gapLE :=
  ⟨fun _ _ _ h1 h2 => le_trans h1 h2⟩

/-- Model of `missing.sort(lambda a, b: cmp(a[0], b[0]))`: stable ascending sort on
the subject URI. -/
def sortGaps (missing : List (String × Record)) : List (String × Record) :=
  missing.insertionSort gapLE

/-- Model of `PlainFormatter.format`: the plain no-lookup output line. -/
def plainLine (subject title creators : String) : String :=
  subject ++ ": " ++ title ++ ", Creators: " ++ creators ++ "\n"

/-- Model of `PlainLookupFormatter.formatWithSuggestedPubMedID`: the plain lookup
output line; the inner match models the Python truthiness test
`pubMedID if pubMedID else u'«NONE»'`. -/
def plainLookupLine (subject title creators : String)
    (pubMedID : Option String) : String :=
  subject ++ ": " ++ title ++ ", Creators: " ++ creators ++
    ", Suggested PubMedID: " ++
    (match pubMedID with
     | some i => if i = "" then "«NONE»" else i
     | none => "«NONE»") ++ "\n"

/-- Model of `CSVFormatter.format`: the CSV row `(subject, title, creators)`. -/
def csvRow (subject title creators : String) : List String :=
  [subject, title, creators]

/-- Model of `CSVLookupFormatter.formatWithSuggestedPubMedID`: the CSV row
`(subject, title, creators, pubMedID)`; the `csv` module writes `None` as
the empty field. -/
def csvLookupRow (subject title creators : String)
    (pubMedID : Option String) : List String :=
  [subject, title, creators, pubMedID.getD ""]

/-- The query parameters of `LookupFormatter.format`:
`{'db': 'pubmed', 'field': 'title', 'term': title}` where `title` is the
title argument the formatter received. -/
def esearchQuery (title : String) : List (String × String) :=
  [("db", "pubmed"), ("field", "title"), ("term", title)]

/-- Model of `LookupFormatter.format`: query the esearch service (modelled as the
oracle `svc` from query parameters to the returned `Id` elements), take the
first returned identifier if any, then delegate to
`formatWithSuggestedPubMedID` (the `fmtWith` argument). -/
def lookupFormat {β : Type} (svc : List (String × String) → List String)
    (fmtWith : String → String → String → Option String → β)
    (subject title creators : String) : β :=
  fmtWith subject title creators (svc (esearchQuery title)).head?

/-- Model of `outputBadPublications` with a lookup formatter: for each gap, render
the title and creators, send one esearch query, format with the first
returned identifier.  Returns the trace of queries sent together with the
formatted records. -/
def outputWithLookup {β : Type} (svc : List (String × String) → List String)
    (fmtWith : String → String → String → Option String → β) :
    List (String × Record) → List (List (String × String)) × List β
  | [] => ([], [])
  | g :: rest =>
    let title := renderTitle g.2
    let line := lookupFormat svc fmtWith g.1 title (renderCreators g.2)
    let r := outputWithLookup svc fmtWith rest
    (esearchQuery title :: r.1, line :: r.2)

/-- Model of `outputBadPublications`, abstracted over the formatter's rendering of one
(subject, title, creators) line. -/
def outputBadPublications (missing : List (String × Record))
    (fmt : String → String → String → String) : List String :=
  missing.map (fun g => fmt g.1 (renderTitle g.2) (renderCreators g.2))

/-- Model of `checkPublications` for the non-lookup formatters: index, detect, sort,
report. -/
def checkPublications (ts : List Triple)
    (fmt : String → String → String → String) : List String :=
  outputBadPublications (sortGaps (findMissingPubMedIDs (parsePubs ts))) fmt

/-! ### C1 and C2 -/

/-- C1: `parsePubs` produces exactly one record per distinct subject
occurring in the triples (unique keys, key present iff the subject occurs),
and each subject's record maps a predicate to exactly the objects of that
subject's triples with that predicate, in arrival order (and has no entry
when there are none). -/
theorem parsePubs_index_correct (ts : List Triple) :
    (keys (parsePubs ts)).Nodup ∧
    (∀ s : String, (lookupKey (parsePubs ts) s).isSome = subjOccurs ts s) ∧
    (∀ s p : String, predEntry (parsePubs ts) s p =
      if indexValues ts s p = [] then none
      else some (indexValues ts s p)) :=
  ⟨keys_nodup_parsePubs ts, fun s => subjKey_parsePubs ts s,
    fun s p => predEntry_parsePubs ts s p⟩

/-- C2: the gap detector returns `(s, rec)` exactly when that pair is in the
index and `rec` has no entry for the PubMed ID predicate; other predicates
play no role. -/
theorem findMissingPubMedIDs_iff (st : StatementIndex) (s : String)
    (rec : Record) :
    (s, rec) ∈ findMissingPubMedIDs st ↔
      (s, rec) ∈ st ∧ lookupKey rec pubMedIDPredURI = none := by
  simp [findMissingPubMedIDs, List.mem_filter, Option.isNone_iff_eq_none]

/-! ### C3 and C4 -/

/-- C3: the reporter emits exactly one record per detected gap (counts are
equal), and the gaps it renders, in emission order, are sorted ascending by
subject URI. -/
theorem checkPublications_count_and_order (ts : List Triple)
    (fmt : String → String → String → String) :
    (checkPublications ts fmt).length =
      (findMissingPubMedIDs (parsePubs ts)).length ∧
    List.Sorted (fun a b : String => a ≤ b)
      ((sortGaps (findMissingPubMedIDs (parsePubs ts))).map Prod.fst) := by
  constructor
  · simp [checkPublications, outputBadPublications, sortGaps,
      List.length_insertionSort]
  · have hs : List.Sorted gapLE
        (sortGaps (findMissingPubMedIDs (parsePubs ts))) :=
      List.sorted_insertionSort gapLE _
    have hs' := hs.imp
      (fun {a b} (h : gapLE a b) => String.le_iff_toList_le.mpr h)
    exact List.pairwise_map.mpr hs'

/-- C4: the title field is the `NO_TITLE` sentinel exactly when the title
predicate is absent, and otherwise the first title value in quotation
marks; the creators field is the `NO_AUTHORS` sentinel exactly when the
creator predicate is absent, and otherwise all creator values joined with
`"; "`. -/
theorem render_sentinels (rec : Record) :
    (lookupKey rec titlePredURI = none → renderTitle rec = NO_TITLE) ∧
    (∀ v vs, lookupKey rec titlePredURI = some (v :: vs) →
      renderTitle rec = "\"" ++ v ++ "\"") ∧
    (lookupKey rec creatorPredURI = none →
      renderCreators rec = NO_AUTHORS) ∧
    (∀ vs, lookupKey rec creatorPredURI = some vs →
      renderCreators rec = String.intercalate "; " vs) := by
  refine ⟨fun h => ?_, fun v vs h => ?_, fun h => ?_, fun vs h => ?_⟩
  · simp [renderTitle, h]
  · simp [renderTitle, h]
  · simp [renderCreators, h]
  · simp [renderCreators, h]

/-- Witness for `render_sentinels` at concrete records. -/
theorem render_sentinels_witness :
    renderTitle [] = NO_TITLE ∧
    renderTitle [(titlePredURI, ["Foo"])] = "\"" ++ "Foo" ++ "\"" ∧
    renderCreators [] = NO_AUTHORS ∧
    renderCreators [(titlePredURI, ["Foo"]), (creatorPredURI, ["X", "Y"])] =
      String.intercalate "; " ["X", "Y"] :=
  ⟨(render_sentinels []).1 rfl,
    (render_sentinels [(titlePredURI, ["Foo"])]).2.1 "Foo" [] (by decide),
    (render_sentinels []).2.2.1 rfl,
    (render_sentinels
      [(titlePredURI, ["Foo"]), (creatorPredURI, ["X", "Y"])]).2.2.2
      ["X", "Y"] (by decide)⟩

/-! ### C5: the plain lookup line -/

/-- The byte line the spec claims for plain lookup output, with field label
`Suggested ID:`. -/
def claimedPlainLookupLine (subject title creators idStr : String) :
    String :=
  subject ++ ": " ++ title ++ ", Creators: " ++ creators ++
    ", Suggested ID: " ++ idStr ++ "\n"

/-- The line after amendment: the label is `Suggested PubMedID:`. -/
def amendedPlainLookupLine (subject title creators idStr : String) :
    String :=
  subject ++ ": " ++ title ++ ", Creators: " ++ creators ++
    ", Suggested PubMedID: " ++ idStr ++ "\n"

/-- The suggested-identifier field of the plain lookup line: the identifier
when one was found (and non-empty, by Python truthiness), else `«NONE»`. -/
def renderSuggestedID : Option String → String
  | some i => if i = "" then "«NONE»" else i
  | none => "«NONE»"

/-- C5 counterexample: the emitted plain lookup line does not carry the
`Suggested ID:` label the spec claims, in either the found or the
not-found case. -/
theorem plainLookupLine_ne_claimed :
    plainLookupLine "s" "t" "c" (some "1") ≠
      claimedPlainLookupLine "s" "t" "c" "1" ∧
    plainLookupLine "s" "t" "c" none ≠
      claimedPlainLookupLine "s" "t" "c" "«NONE»" := by
  constructor <;> decide

/-- C5 as amended: each plain lookup record is emitted as exactly the line
`<subject>: <title>, Creators: <creators>, Suggested PubMedID: <id-or-none-sentinel>\n`. -/
theorem plainLookupLine_eq_amended (subject title creators : String)
    (pubMedID : Option String) :
    plainLookupLine subject title creators pubMedID =
      amendedPlainLookupLine subject title creators
        (renderSuggestedID pubMedID) := by
  cases pubMedID <;> rfl

/-! ### C6: the search term sent to the esearch service -/

/-- C6 counterexample: for a gap whose record's title value is `Foo`, the
`term` parameter sent to the esearch service is not the raw title text
`Foo` (it is the rendered title, `"Foo"` in quotation marks). -/
theorem lookup_term_not_raw_title :
    lookupKey ((outputWithLookup (fun _ => []) (fun _ _ _ _ => "")
        [("s", [(titlePredURI, ["Foo"])])]).1.headD []) "term" ≠
      some "Foo" := by
  decide

/-- C6 as amended: the queries sent to the esearch service, one per gap in
order, carry the fixed `db=pubmed` and `field=title` parameters and, as the
`term` parameter, the gap's rendered title field (first title value wrapped
in quotation marks, or the `NO_TITLE` sentinel when the title predicate is
absent) — not the raw title text. -/
theorem lookup_queries_use_rendered_title {β : Type}
    (svc : List (String × String) → List String)
    (fmtWith : String → String → String → Option String → β)
    (missing : List (String × Record)) :
    (outputWithLookup svc fmtWith missing).1 =
      missing.map (fun g =>
        [("db", "pubmed"), ("field", "title"),
          ("term", renderTitle g.2)]) := by
  induction missing with
  | nil => rfl
  | cons g rest ih => simp [outputWithLookup, esearchQuery, ih]

/-! ### C7: first identifier, and the none-found renderings -/

/-- C7: with lookup enabled the identifier passed on to the formatter is the
first `Id` element returned by the service; when the service returns none,
the plain format renders the `«NONE»` sentinel and the CSV format renders
an empty field in the suggested-id position. -/
theorem lookup_suggestion_behavior
    (svc : List (String × String) → List String)
    (s title creators : String) :
    (∀ x xs, svc (esearchQuery title) = x :: xs →
      lookupFormat svc plainLookupLine s title creators =
        plainLookupLine s title creators (some x) ∧
      lookupFormat svc csvLookupRow s title creators =
        [s, title, creators, x]) ∧
    (svc (esearchQuery title) = [] →
      lookupFormat svc plainLookupLine s title creators =
        amendedPlainLookupLine s title creators "«NONE»" ∧
      lookupFormat svc csvLookupRow s title creators =
        [s, title, creators, ""]) := by
  constructor
  · intro x xs h
    constructor <;> simp [lookupFormat, h, csvLookupRow]
  · intro h
    refine ⟨?_, by simp [lookupFormat, h, csvLookupRow]⟩
    simp only [lookupFormat, h, List.head?]
    rfl

/-- Witness for `lookup_suggestion_behavior` at concrete services. -/
theorem lookup_suggestion_behavior_witness :
    lookupFormat (fun _ => ["123"]) csvLookupRow "s" "t" "c" =
      ["s", "t", "c", "123"] ∧
    lookupFormat (fun _ => []) csvLookupRow "s" "t" "c" =
      ["s", "t", "c", ""] :=
  ⟨((lookup_suggestion_behavior (fun _ => ["123"]) "s" "t" "c").1
      "123" [] rfl).2,
    ((lookup_suggestion_behavior (fun _ => []) "s" "t" "c").2 rfl).2⟩

/-! ### C8: error propagation, written records, exit status -/

/-- Render the sorted gaps one at a time; a failing step (an exception in
the formatter, e.g. during its lookup call) aborts the loop.  Returns the
records written before the failure and the error, if any. -/
def processGaps (fmt : String × Record → Except String String) :
    List (String × Record) → List String × Option String
  | [] => ([], none)
  | g :: rest =>
    match fmt g with
    | .error e => ([], some e)
    | .ok line =>
      let r := processGaps fmt rest
      (line :: r.1, r.2)

/-- The diagnostic of `main`'s exception handler:
`logging.exception('Failure while checking URL "%s"' % url)`. -/
def failureLog (url : String) : String :=
  "Failure while checking URL \x22" ++ url ++ "\x22"

/-- The observable outcome of one run: the records written to the output,
the process exit status, and the logged diagnostic, if any. -/
structure RunResult where
  written : List String
  exitCode : Int
  diagnostic : Option String
deriving DecidableEq, Repr

/-- Model of `main` (with `sys.exit(0 if main(...) else -1)`): fetching/parsing the
feed is modelled by the `fetched` argument; any error — while fetching or
mid-stream while rendering — aborts the remaining work, logs the
diagnostic, and exits non-zero; a clean run exits 0. -/
def mainRun (url : String) (fetched : Except String (List Triple))
    (fmt : String × Record → Except String String) : RunResult :=
  match fetched with
  | .error _ => ⟨[], -1, some (failureLog url)⟩
  | .ok ts =>
    let missing := sortGaps (findMissingPubMedIDs (parsePubs ts))
    let r := processGaps fmt missing
    match r.2 with
    | some _ => ⟨r.1, -1, some (failureLog url)⟩
    | none => ⟨r.1, 0, none⟩

theorem processGaps_all_ok (fmt : String × Record → Except String String) :
    ∀ (gs : List (String × Record)) (lines : List String),
      List.Forall₂ (fun g l => fmt g = .ok l) gs lines →
      processGaps fmt gs = (lines, none) := by
  intro gs lines h
  induction h with
  | nil => rfl
  | cons hgl _ ih =>
    simp [processGaps, hgl, ih]

theorem processGaps_stops_at_error
    (fmt : String × Record → Except String String)
    (g : String × Record) (e : String) (gs2 : List (String × Record))
    (he : fmt g = .error e) :
    ∀ (gs1 : List (String × Record)) (lines : List String),
      List.Forall₂ (fun g' l => fmt g' = .ok l) gs1 lines →
      processGaps fmt (gs1 ++ g :: gs2) = (lines, some e) := by
  intro gs1 lines h
  induction h with
  | nil => simp [processGaps, he]
  | cons hgl _ ih =>
    simp [processGaps, hgl, ih]

/-- C8: a fetch/parse error writes nothing, logs the diagnostic naming the
feed URL and exits non-zero; an error while rendering gap `g` leaves
exactly the records of the gaps before `g` written, logs the diagnostic and
exits non-zero; a run with no error writes every record and exits 0; and
the diagnostic does name the feed URL. -/
theorem mainRun_error_policy (url : String)
    (fmt : String × Record → Except String String) :
    (∀ e : String,
      mainRun url (.error e) fmt = ⟨[], -1, some (failureLog url)⟩) ∧
    (∀ (ts : List Triple) (gs1 : List (String × Record))
        (g : String × Record) (gs2 : List (String × Record))
        (lines : List String) (e : String),
      sortGaps (findMissingPubMedIDs (parsePubs ts)) = gs1 ++ g :: gs2 →
      List.Forall₂ (fun g' l => fmt g' = .ok l) gs1 lines →
      fmt g = .error e →
      mainRun url (.ok ts) fmt = ⟨lines, -1, some (failureLog url)⟩) ∧
    (∀ (ts : List Triple) (lines : List String),
      List.Forall₂ (fun g' l => fmt g' = .ok l)
        (sortGaps (findMissingPubMedIDs (parsePubs ts))) lines →
      mainRun url (.ok ts) fmt = ⟨lines, 0, none⟩) ∧
    (∃ pre post : String, failureLog url = pre ++ url ++ post) := by
  refine ⟨fun e => rfl, ?_, ?_, ?_⟩
  · intro ts gs1 g gs2 lines e hsort hok he
    have hp := processGaps_stops_at_error fmt g e gs2 he gs1 lines hok
    simp [mainRun, hsort, hp]
  · intro ts lines hok
    have hp := processGaps_all_ok fmt _ lines hok
    simp [mainRun, hp]
  · exact ⟨"Failure while checking URL \x22", "\x22", rfl⟩

/-- Witness for `mainRun_error_policy`: a feed with gaps `a` and `b` where
rendering `b` fails writes only `a`'s record and exits non-zero; the same
feed with a total formatter writes both records and exits 0. -/
theorem mainRun_error_policy_witness :
    mainRun "u" (.error "down")
      (fun g => if g.1 = "b" then .error "boom" else .ok g.1) =
      ⟨[], -1, some (failureLog "u")⟩ ∧
    mainRun "u"
      (.ok [⟨"a", "t", "1"⟩, ⟨"b", "t", "2"⟩])
      (fun g => if g.1 = "b" then .error "boom" else .ok g.1) =
      ⟨["a"], -1, some (failureLog "u")⟩ ∧
    mainRun "u" (.ok [⟨"a", "t", "1"⟩, ⟨"b", "t", "2"⟩])
      (fun g => .ok g.1) =
      ⟨["a", "b"], 0, none⟩ := by
  refine ⟨(mainRun_error_policy "u" _).1 "down", ?_, ?_⟩
  · exact (mainRun_error_policy "u" _).2.1
      [⟨"a", "t", "1"⟩, ⟨"b", "t", "2"⟩]
      [("a", [("t", ["1"])])] ("b", [("t", ["2"])]) [] ["a"] "boom"
      (by decide)
      (List.Forall₂.cons rfl List.Forall₂.nil)
      rfl
  · refine (mainRun_error_policy "u" _).2.2.1
      [⟨"a", "t", "1"⟩, ⟨"b", "t", "2"⟩] ["a", "b"] ?_
    rw [show sortGaps (findMissingPubMedIDs
        (parsePubs [⟨"a", "t", "1"⟩, ⟨"b", "t", "2"⟩])) =
        [("a", [("t", ["1"])]), ("b", [("t", ["2"])])] from by decide]
    exact List.Forall₂.cons rfl (List.Forall₂.cons rfl List.Forall₂.nil)

/-! ### C10: value lists in the index are never empty -/

/-- C10: in an index produced by `parsePubs`, every predicate entry of every
record is a non-empty list; consequently the reporter's access to the first
title value always succeeds, and a present creator predicate joins at least
one value. -/
theorem parsePubs_values_nonempty (ts : List Triple) (s p : String)
    (rec : Record) (vs : List String)
    (h1 : lookupKey (parsePubs ts) s = some rec)
    (h2 : lookupKey rec p = some vs) :
    vs ≠ [] ∧
    (p = titlePredURI →
      ∃ v vs', vs = v :: vs' ∧ renderTitle rec = "\"" ++ v ++ "\"") ∧
    (p = creatorPredURI →
      renderCreators rec = String.intercalate "; " vs) := by
  have hpe : predEntry (parsePubs ts) s p = some vs := by
    simp [predEntry, h1, h2]
  rw [predEntry_parsePubs] at hpe
  by_cases hempty : indexValues ts s p = []
  · simp [hempty] at hpe
  · rw [if_neg hempty, Option.some_inj] at hpe
    subst hpe
    refine ⟨hempty, fun hp => ?_, fun hp => ?_⟩
    · subst hp
      obtain ⟨v, vs', hv⟩ := List.exists_cons_of_ne_nil hempty
      exact ⟨v, vs', hv, by simp [renderTitle, h2, hv]⟩
    · subst hp
      simp [renderCreators, h2]

/-- Witness for `parsePubs_values_nonempty` on a one-triple feed. -/
theorem parsePubs_values_nonempty_witness :
    (["T"] : List String) ≠ [] ∧
    (titlePredURI = titlePredURI →
      ∃ v vs', (["T"] : List String) = v :: vs' ∧
        renderTitle [(titlePredURI, ["T"])] = "\"" ++ v ++ "\"") ∧
    (titlePredURI = creatorPredURI →
      renderCreators [(titlePredURI, ["T"])] =
        String.intercalate "; " ["T"]) :=
  parsePubs_values_nonempty [⟨"s", titlePredURI, "T"⟩] "s" titlePredURI
    [(titlePredURI, ["T"])] ["T"] (by decide) (by decide)

/-! ### C9: the csv module's writer and reader (default dialect)

Fields are modelled as `List Char`.  The default dialect quotes a field
exactly when it contains the delimiter `,`, the quote char `"`, or a
character of the line terminator `\r\n`; embedded quote chars are doubled;
rows end with `\r\n`. -/

/-- Characters that force quoting of a field. -/
def csvSpecialChar (c : Char) : Bool :=
  c = ',' || c = '\x22' || c = '\r' || c = '\n'

/-- Does the field need quoting (QUOTE_MINIMAL)? -/
def csvNeedsQuote (f : List Char) : Bool := f.any csvSpecialChar

/-- Double every embedded quote char. -/
def csvEscape : List Char → List Char
  | [] => []
  | c :: rest =>
    if c = '\x22' then '\x22' :: '\x22' :: csvEscape rest
    else c :: csvEscape rest

/-- Render one field, quoted if needed. -/
def csvField (f : List Char) : List Char :=
  if csvNeedsQuote f then '\x22' :: (csvEscape f ++ ['\x22']) else f

/-- The comma-separated body of a row. -/
def csvRowBody : List (List Char) → List Char
  | [] => []
  | [f] => csvField f
  | f :: g :: rest => csvField f ++ ',' :: csvRowBody (g :: rest)

/-- One written row, terminated by CRLF. -/
def csvRowChars (r : List (List Char)) : List Char :=
  csvRowBody r ++ ['\r', '\n']

/-- The writer: all rows, concatenated. -/
def csvWrite (rows : List (List (List Char))) : List Char :=
  (rows.map csvRowChars).flatten

/-- Read a quoted field after its opening quote: a doubled quote char is one
literal quote, a lone quote char closes the field. -/
def parseQuoted : List Char → Option (List Char × List Char)
  | [] => none
  | [c] => if c = '\x22' then some ([], []) else none
  | c :: c2 :: rest =>
    if c = '\x22' then
      if c2 = '\x22' then
        (parseQuoted rest).map (fun fr => ('\x22' :: fr.1, fr.2))
      else some ([], c2 :: rest)
    else (parseQuoted (c2 :: rest)).map (fun fr => (c :: fr.1, fr.2))

/-- Read an unquoted field: everything up to a special character. -/
def parseBare : List Char → List Char × List Char
  | [] => ([], [])
  | c :: rest =>
    if csvSpecialChar c then ([], c :: rest)
    else
      let r := parseBare rest
      (c :: r.1, r.2)

/-- Read one field, quoted or bare. -/
def parseField : List Char → Option (List Char × List Char)
  | [] => some ([], [])
  | c :: rest =>
    if c = '\x22' then parseQuoted rest
    else some (parseBare (c :: rest))

/-- Read one row: fields separated by commas, ended by CRLF.  The fuel
bounds the number of fields. -/
def parseRowFuel : Nat → List Char → Option (List (List Char) × List Char)
  | 0, _ => none
  | fuel + 1, cs =>
    match parseField cs with
    | none => none
    | some (f, r) =>
      match r with
      | ',' :: r2 => (parseRowFuel fuel r2).map (fun x => (f :: x.1, x.2))
      | '\r' :: '\n' :: r2 => some ([f], r2)
      | _ => none

/-- Read all rows.  The fuel bounds the number of rows. -/
def parseRowsFuel : Nat → List Char → Option (List (List (List Char)))
  | _, [] => some []
  | 0, _ :: _ => none
  | fuel + 1, c :: cs =>
    match parseRowFuel (fuel + 1) (c :: cs) with
    | none => none
    | some (r, rest) => (parseRowsFuel fuel rest).map (fun rs => r :: rs)

/-- The reader, with enough fuel for any input of that length. -/
def csvParse (cs : List Char) : Option (List (List (List Char))) :=
  parseRowsFuel cs.length cs

theorem parseQuoted_escape (f : List Char) :
    ∀ rest : List Char, rest.head? ≠ some '\x22' →
      parseQuoted (csvEscape f ++ '\x22' :: rest) = some (f, rest) := by
  induction f with
  | nil =>
    intro rest hrest
    cases rest with
    | nil => simp [csvEscape, parseQuoted]
    | cons c cs =>
      have hc : ¬c = '\x22' := by
        intro h
        exact hrest (by simp [h])
      simp [csvEscape, parseQuoted, hc]
  | cons c f' ih =>
    intro rest hrest
    by_cases hc : c = '\x22'
    · subst hc
      simp only [csvEscape, if_pos rfl, List.cons_append]
      simp [parseQuoted, ih rest hrest]
    · simp only [csvEscape, if_neg hc, List.cons_append]
      cases hsh : csvEscape f' ++ '\x22' :: rest with
      | nil => exact absurd hsh (by simp)
      | cons d ds =>
        rw [show parseQuoted (c :: d :: ds) =
            (parseQuoted (d :: ds)).map (fun fr => (c :: fr.1, fr.2)) from by
          simp [parseQuoted, hc]]
        rw [← hsh, ih rest hrest]
        rfl

theorem parseBare_no_special (f : List Char) (d : Char)
    (rest : List Char) (hf : csvNeedsQuote f = false)
    (hd : csvSpecialChar d = true) :
    parseBare (f ++ d :: rest) = (f, d :: rest) := by
  induction f with
  | nil => simp [parseBare, hd]
  | cons c f' ih =>
    have hc : csvSpecialChar c = false := by
      by_contra h
      simp [csvNeedsQuote, List.any_cons] at hf
      exact absurd hf.1 (by simpa using h)
    have hf' : csvNeedsQuote f' = false := by
      simp [csvNeedsQuote, List.any_cons] at hf ⊢
      exact hf.2
    simp [parseBare, hc, ih hf']

theorem parseField_written (f : List Char) (d : Char) (rest : List Char)
    (hd : d = ',' ∨ d = '\r') :
    parseField (csvField f ++ d :: rest) = some (f, d :: rest) := by
  have hdq : ¬d = '\x22' := by rcases hd with h | h <;> simp [h]
  have hds : csvSpecialChar d = true := by
    rcases hd with h | h <;> simp [csvSpecialChar, h]
  by_cases hq : csvNeedsQuote f = true
  · simp only [csvField, if_pos hq, List.cons_append]
    rw [show parseField ('\x22' :: ((csvEscape f ++ ['\x22']) ++ d :: rest)) =
        parseQuoted ((csvEscape f ++ ['\x22']) ++ d :: rest) from by
      simp [parseField]]
    rw [List.append_assoc, List.singleton_append]
    exact parseQuoted_escape f (d :: rest) (by simp [hdq])
  · have hq' : csvNeedsQuote f = false := by simpa using hq
    rw [csvField, if_neg (by simp [hq'])]
    cases f with
    | nil =>
      simp [parseField, hdq, parseBare, hds]
    | cons c f' =>
      have hc : ¬c = '\x22' := by
        intro h
        rw [csvNeedsQuote, List.any_cons] at hq'
        simp [csvSpecialChar, h] at hq'
      simp only [List.cons_append, parseField, if_neg hc]
      have hb := parseBare_no_special (c :: f') d rest hq' hds
      rw [List.cons_append] at hb
      rw [hb]

theorem parseRowFuel_written (r : List (List Char)) :
    ∀ (fuel : Nat) (rest : List Char), r ≠ [] → r.length ≤ fuel →
      parseRowFuel fuel (csvRowBody r ++ '\r' :: '\n' :: rest) =
        some (r, rest) := by
  induction r with
  | nil => intro fuel rest h _; exact absurd rfl h
  | cons f r' ih =>
    intro fuel rest _ hlen
    obtain ⟨fuel', rfl⟩ : ∃ k, fuel = k + 1 :=
      ⟨fuel - 1, by simp at hlen; omega⟩
    cases r' with
    | nil =>
      rw [show csvRowBody [f] = csvField f from rfl]
      simp only [parseRowFuel]
      rw [parseField_written f '\r' ('\n' :: rest) (Or.inr rfl)]
      rfl
    | cons g r'' =>
      rw [show csvRowBody (f :: g :: r'') =
          csvField f ++ ',' :: csvRowBody (g :: r'') from rfl,
        List.append_assoc, List.cons_append]
      simp only [parseRowFuel]
      rw [parseField_written f ','
        (csvRowBody (g :: r'') ++ '\r' :: '\n' :: rest) (Or.inl rfl)]
      have hih := ih fuel' rest (by simp) (by simp at hlen ⊢; omega)
      simp [hih]

theorem parseRowsFuel_written (rows : List (List (List Char))) :
    ∀ fuel : Nat, (∀ r ∈ rows, r ≠ []) →
      (rows.map List.length).sum + rows.length ≤ fuel →
      parseRowsFuel fuel (csvWrite rows) = some rows := by
  induction rows with
  | nil =>
    intro fuel _ _
    cases fuel <;> rfl
  | cons r rows' ih =>
    intro fuel hne hlen
    have hr : r ≠ [] := hne r (by simp)
    have hrlen : 1 ≤ r.length := List.length_pos.mpr hr
    obtain ⟨fuel', rfl⟩ : ∃ k, fuel = k + 1 :=
      ⟨fuel - 1, by simp at hlen; omega⟩
    have hw : csvWrite (r :: rows') =
        csvRowBody r ++ '\r' :: '\n' :: csvWrite rows' := by
      simp [csvWrite, csvRowChars, List.append_assoc]
    have hrow := parseRowFuel_written r (fuel' + 1) (csvWrite rows') hr
      (by simp at hlen; omega)
    cases hin : csvRowBody r ++ '\r' :: '\n' :: csvWrite rows' with
    | nil => exact absurd hin (by simp)
    | cons c cs =>
      rw [hw, hin]
      simp only [parseRowsFuel]
      rw [← hin, hrow]
      have hih := ih fuel' (fun r hmem => hne r (by simp [hmem]))
        (by simp at hlen ⊢; omega)
      simp [hih]

theorem csvRowBody_length (r : List (List Char)) :
    r.length ≤ (csvRowBody r).length + 1 := by
  induction r with
  | nil => simp [csvRowBody]
  | cons f r' ih =>
    cases r' with
    | nil => simp [csvRowBody]
    | cons g r'' =>
      rw [show csvRowBody (f :: g :: r'') =
          csvField f ++ ',' :: csvRowBody (g :: r'') from rfl]
      simp only [List.length_cons, List.length_append] at ih ⊢
      omega

theorem csvWrite_length (rows : List (List (List Char))) :
    (rows.map List.length).sum + rows.length ≤ (csvWrite rows).length := by
  induction rows with
  | nil => simp [csvWrite]
  | cons r rows' ih =>
    have hb := csvRowBody_length r
    have hc : (csvRowChars r).length = (csvRowBody r).length + 2 := by
      simp [csvRowChars]
    simp only [csvWrite, List.map_cons, List.flatten_cons,
      List.length_append, List.sum_cons, List.length_cons] at ih ⊢
    omega

/-- Parsing the writer's output recovers every row, field for field. -/
theorem csv_roundtrip (rows : List (List (List Char)))
    (h : ∀ r ∈ rows, r ≠ []) :
    csvParse (csvWrite rows) = some rows := by
  unfold csvParse
  exact parseRowsFuel_written rows _ h (csvWrite_length rows)

/-- C9: parsing the CSV output of the reporter — with rows
`(subject, title, creators)` from `CSVFormatter.format` or
`(subject, title, creators, suggested-id-or-empty)` from
`CSVLookupFormatter.formatWithSuggestedPubMedID` — yields exactly the
tuples that were fed in, field for field. -/
theorem csv_roundtrip_reporter
    (t3 : List (String × String × String))
    (t4 : List (String × String × String × Option String)) :
    csvParse (csvWrite (t3.map
        (fun x => (csvRow x.1 x.2.1 x.2.2).map String.data))) =
      some (t3.map (fun x => (csvRow x.1 x.2.1 x.2.2).map String.data)) ∧
    csvParse (csvWrite (t4.map
        (fun x => (csvLookupRow x.1 x.2.1 x.2.2.1 x.2.2.2).map
          String.data))) =
      some (t4.map (fun x => (csvLookupRow x.1 x.2.1 x.2.2.1
        x.2.2.2).map String.data)) := by
  constructor <;>
  · apply csv_roundtrip
    intro r hr
    rw [List.mem_map] at hr
    obtain ⟨x, _, rfl⟩ := hr
    simp [csvRow, csvLookupRow]

end Badpubs
